import Mathlib

/-!
Verification development for a small sheet-hub HTTP service (src/app.py).
The service lists companies from a master-config spreadsheet, reads a
worksheet together with an editable mask, merges client edits back into the
formula-preserving grid, and clones a template worksheet while clearing
numeric cells.

The remote spreadsheet store is modelled as an environment; remote round
trips are recorded in an explicit trace.  Cell values are modelled by the
inductive `PyVal` (strings, integers, booleans, None and nested lists;
floating-point cells are outside the model).
-/

/-- A dynamically typed value, as delivered by the JSON layer or by the
spreadsheet store: string, integer, boolean, None, or a nested list. -/
inductive PyVal : Type where
  | str (s : String)
  | int (n : Int)
  | bool (b : Bool)
  | none
  | list (l : List PyVal)

mutual

/-- Structural (Python `==`-style on same-typed values) equality test. -/
def pyBeq : PyVal → PyVal → Bool
  | .str a, .str b => a == b
  | .int a, .int b => a == b
  | .bool a, .bool b => a == b
  | .none, .none => true
  | .list a, .list b => pyBeqList a b
  | _, _ => false

/-- Elementwise equality of value lists. -/
def pyBeqList : List PyVal → List PyVal → Bool
  | [], [] => true
  | a :: as, b :: bs => pyBeq a b && pyBeqList as bs
  | _, _ => false

end

mutual

theorem pyBeq_iff : ∀ a b : PyVal, pyBeq a b = true ↔ a = b
  | .str a, .str b => by simp [pyBeq]
  | .int a, .int b => by simp [pyBeq]
  | .bool a, .bool b => by simp [pyBeq]
  | .none, .none => by simp [pyBeq]
  | .list a, .list b => by simpa [pyBeq] using pyBeqList_iff a b
  | .str a, .int b => by simp [pyBeq]
  | .str a, .bool b => by simp [pyBeq]
  | .str a, .none => by simp [pyBeq]
  | .str a, .list b => by simp [pyBeq]
  | .int a, .str b => by simp [pyBeq]
  | .int a, .bool b => by simp [pyBeq]
  | .int a, .none => by simp [pyBeq]
  | .int a, .list b => by simp [pyBeq]
  | .bool a, .str b => by simp [pyBeq]
  | .bool a, .int b => by simp [pyBeq]
  | .bool a, .none => by simp [pyBeq]
  | .bool a, .list b => by simp [pyBeq]
  | .none, .str b => by simp [pyBeq]
  | .none, .int b => by simp [pyBeq]
  | .none, .bool b => by simp [pyBeq]
  | .none, .list b => by simp [pyBeq]
  | .list a, .str b => by simp [pyBeq]
  | .list a, .int b => by simp [pyBeq]
  | .list a, .bool b => by simp [pyBeq]
  | .list a, .none => by simp [pyBeq]

theorem pyBeqList_iff : ∀ a b : List PyVal, pyBeqList a b = true ↔ a = b
  | [], [] => by simp [pyBeqList]
  | a :: as, b :: bs => by
      simp [pyBeqList, pyBeq_iff a b, pyBeqList_iff as bs]
  | [], _ :: _ => by simp [pyBeqList]
  | _ :: _, [] => by simp [pyBeqList]

end

instance : DecidableEq PyVal :=
  fun a b => decidable_of_iff (pyBeq a b = true) (pyBeq_iff a b)

mutual

/-- `repr` of a value (used by `str` on containers): strings get quoted,
booleans print capitalised, None prints as such. -/
def pyRepr : PyVal → String
  | .str s => "\x27" ++ s ++ "\x27"
  | .int n => toString n
  | .bool true => "True"
  | .bool false => "False"
  | .none => "None"
  | .list l => "[" ++ pyReprList l ++ "]"

/-- Comma-separated `repr`s of the elements of a list. -/
def pyReprList : List PyVal → String
  | [] => ""
  | [x] => pyRepr x
  | x :: y :: xs => pyRepr x ++ ", " ++ pyReprList (y :: xs)

end

/-- `str(v)`: identity on strings, decimal on integers, `True`/`False` on
booleans, `None` on None, `repr` elementwise on lists. -/
def pyStr : PyVal → String
  | .str s => s
  | v => pyRepr v

/-- Truthiness of a value (`if v:`): empty string, zero, False, None and the
empty list are falsy. -/
def pyTruthy : PyVal → Bool
  | .str s => !(s == "")
  | .int n => !(n == 0)
  | .bool b => b
  | .none => false
  | .list l => !l.isEmpty

/-- Truthiness of an optional value (`dict.get` returns None when absent). -/
def pyTruthyO : Option PyVal → Bool
  | some v => pyTruthy v
  | Option.none => false

/-- `len(v)` : defined for lists and strings, a TypeError (`none`) otherwise. -/
def pyLen : PyVal → Option Nat
  | .list l => some l.length
  | .str s => some s.length
  | _ => Option.none

/-- `v[i]` for an in-range index: list element, or one-character string for a
string; a TypeError (`none`) for non-subscriptable values. -/
def pyIndex : PyVal → Nat → Option PyVal
  | .list l, i => l.get? i
  | .str s, i => (s.toList.get? i).map (fun c => PyVal.str (String.singleton c))
  | _, _ => Option.none

/-! ### Model of Python `float(str)` parsing

`float` accepts an optional sign, then either one of the keywords
`inf` / `infinity` / `nan` (case-insensitive), or a decimal mantissa with an
optional fraction and an optional exponent.  Underscores are accepted only
between digits.  (Unicode digits and exotic whitespace are outside the
model; the callers below always pass an already-stripped ASCII string.) -/

/-- Consume further digits, allowing a single underscore between digits. -/
def eatDigitsCore : List Char → List Char
  | '_' :: d :: rest => if d.isDigit then eatDigitsCore rest else '_' :: d :: rest
  | c :: rest => if c.isDigit then eatDigitsCore rest else c :: rest
  | [] => []

/-- Consume a run of one or more digits (underscores allowed between
digits); `none` when the input does not start with a digit. -/
def eatDigits : List Char → Option (List Char)
  | c :: rest => if c.isDigit then some (eatDigitsCore rest) else Option.none
  | [] => Option.none

/-- Accept an optional exponent part (`e`/`E`, optional sign, digits) which
must consume the whole remaining input. -/
def expPart : List Char → Bool
  | [] => true
  | c :: rest =>
    if c == 'e' || c == 'E' then
      let rest2 := match rest with
        | s :: r => if s == '+' || s == '-' then r else s :: r
        | [] => []
      match eatDigits rest2 with
      | some [] => true
      | _ => false
    else false

/-- After the integer digits of the mantissa: an optional `.` with optional
fractional digits, then the exponent part. -/
def mantissaRest : List Char → Bool
  | '.' :: rest =>
      match eatDigits rest with
      | some r => expPart r
      | Option.none => expPart rest
  | l => expPart l

/-- A full numeric literal body (no sign): digits with optional fraction, or
a leading `.` with mandatory fractional digits; then an optional exponent. -/
def numBody (l : List Char) : Bool :=
  match eatDigits l with
  | some r => mantissaRest r
  | Option.none =>
      match l with
      | '.' :: rest =>
          match eatDigits rest with
          | some r => expPart r
          | Option.none => false
      | _ => false

/-- Case-insensitive comparison of the whole remaining input with a keyword. -/
def matchLower (l : List Char) (kw : String) : Bool :=
  l.map Char.toLower == kw.toList

/-- Whether Python `float(s)` succeeds on the string `s`. -/
def pyFloatParses (s : String) : Bool :=
  let l := s.toList
  let l1 := match l with
    | c :: rest => if c == '+' || c == '-' then rest else c :: rest
    | [] => []
  if matchLower l1 "inf" || matchLower l1 "infinity" || matchLower l1 "nan" then true
  else numBody l1

/-! ### Formula detection (shared by the mask and clone engines)

Both `get_company_sheet` and `clone_company_sheet` classify a cell as a
formula exactly when it is a string whose text starts with `=`
(`isinstance(v, str) and v.startswith("=")`). -/

/-- `s.startswith(pre)`: codepoint-wise prefix test. -/
def pyStartsWith (s pre : String) : Bool :=
  pre.toList.isPrefixOf s.toList

/-- A cell holds a formula iff it is a string starting with `=`. -/
def is_formula_cell : PyVal → Bool
  | .str f => pyStartsWith f "="
  | _ => false

/-! ### Clone engine: the numeric-clear pass (`clone_company_sheet`,
src/app.py lines 255-276) -/

/-- `s.strip()`: drop leading and trailing whitespace codepoints. -/
def pyStrip (s : String) : String :=
  String.mk
    (((s.toList.dropWhile Char.isWhitespace).reverse.dropWhile
        Char.isWhitespace).reverse)

/-- `s.replace(",", "")`: remove every comma. -/
def removeCommas (s : String) : String :=
  String.mk (s.toList.filter (fun c => !(c == ',')))

/-- One cell of the cleaning pass: keep formulas verbatim; otherwise take
`str(val).strip()` — keep an empty cell empty, clear the cell (to `""`)
when the text with commas removed parses as a float, keep it verbatim
otherwise. -/
def clean_cell (val : PyVal) : PyVal :=
  if is_formula_cell val then val
  else
    let s := pyStrip (pyStr val)
    if s == "" then PyVal.str ""
    else if pyFloatParses (removeCommas s) then PyVal.str ""
    else val

/-- The cleaned matrix built row by row, cell by cell. -/
def cleaned (formulas : List (List PyVal)) : List (List PyVal) :=
  formulas.map (fun row => row.map clean_cell)

/-! ### Editable-mask engine (`get_company_sheet`, src/app.py lines 117-126)

`zip(values_display, values_formula)` pairs rows up to the shorter row
count; the inner `zip(row_disp, row_form)` pairs cells up to the shorter
row length.  A cell is locked (`False`) iff its formula-view value is a
string starting with `=`. -/

/-- The editable mask built from the display grid and the formula grid. -/
def editable_mask (values_display values_formula : List (List PyVal)) :
    List (List Bool) :=
  (values_display.zip values_formula).map (fun rows =>
    (rows.1.zip rows.2).map (fun cells => !is_formula_cell cells.2))

/-! ### Merge engine (`update_company_sheet`, src/app.py lines 183-194)

The client payload is dynamically typed, so the merge is modelled over
`PyVal` rows with a `TypeError` outcome (`Option.none`) wherever the code
would raise: `len(row)` and `row[c]` on a non-sized / non-subscriptable
value. -/

/-- `r < len(editable) and c < len(editable[r]) and editable[r][c] is True`,
short-circuit evaluation included: the check is `False` without error when
`r` is out of range, raises (`none`) when `editable[r]` has no `len`, and
otherwise demands identity with the boolean `True`. -/
def can_edit_dyn (editable : List PyVal) (r c : Nat) : Option Bool :=
  match editable.get? r with
  | Option.none => some false
  | some erow =>
    match pyLen erow with
    | Option.none => Option.none
    | some n =>
      if c < n then
        match pyIndex erow c with
        | some (PyVal.bool true) => some true
        | some _ => some false
        | Option.none => Option.none
      else some false

/-- The inner column loop over one current row: positions `c0, c0+1, …`;
for `c < cols` the cell is replaced by `new_values[r][c]` when
`can_edit` holds, otherwise kept. -/
def merge_row_dyn (editable : List PyVal) (nrow : PyVal) (r cols : Nat) :
    Nat → List PyVal → Option (List PyVal)
  | _, [] => some []
  | c, v :: rest =>
    if c < cols then
      match can_edit_dyn editable r c with
      | Option.none => Option.none
      | some ce =>
        match (if ce then pyIndex nrow c else some v) with
        | Option.none => Option.none
        | some v2 =>
          match merge_row_dyn editable nrow r cols (c + 1) rest with
          | Option.none => Option.none
          | some rest2 => some (v2 :: rest2)
    else some (v :: rest)

/-- The outer row loop: rows `r0, r0+1, …`; for `r < rows` the row is
merged against `new_values[r]` with `cols = min(len(current[r]),
len(new_values[r]))`, later rows are kept unchanged. -/
def merge_rows_dyn (editable : List PyVal) (newValues : List PyVal)
    (rows : Nat) : Nat → List (List PyVal) → Option (List (List PyVal))
  | _, [] => some []
  | r, row :: rest =>
    if r < rows then
      match newValues.get? r with
      | Option.none => Option.none
      | some nrow =>
        match pyLen nrow with
        | Option.none => Option.none
        | some nlen =>
          match merge_row_dyn editable nrow r (min row.length nlen) 0 row with
          | Option.none => Option.none
          | some row2 =>
            match merge_rows_dyn editable newValues rows (r + 1) rest with
            | Option.none => Option.none
            | some rest2 => some (row2 :: rest2)
    else some (row :: rest)

/-- The merge of `new_values` into `current` gated by `editable`:
`rows = min(len(current), len(new_values))`, then the nested loops above;
`none` models an uncaught `TypeError`. -/
def merge_dyn (current : List (List PyVal)) (newValues editable : List PyVal) :
    Option (List (List PyVal) × Nat) :=
  let rows := min current.length newValues.length
  (merge_rows_dyn editable newValues rows 0 current).map (fun g => (g, rows))

/-- Encode a well-formed grid payload as a dynamic value list (each row a
`PyVal.list`). -/
def gridRows (g : List (List PyVal)) : List PyVal :=
  g.map PyVal.list

/-- The strict editable gate on a well-formed mask grid: the entry at
`(r, c)` exists and is the boolean `True`. -/
def can_edit_grid (editable : List (List PyVal)) (r c : Nat) : Bool :=
  match editable.get? r with
  | some erow =>
    match erow.get? c with
    | some (PyVal.bool true) => true
    | _ => false
  | Option.none => false

/-! ### The remote store and the HTTP handlers

The spreadsheet store is an environment: the master-config records (the
result of `get_all_records()` on worksheet 0 of the master spreadsheet),
a spreadsheet per key, and the diagnostic text of the store exception
raised when a worksheet title cannot be resolved.  Every remote round trip
performed by a handler is recorded in an explicit trace. -/

/-- A row of `get_all_records()`: a string-keyed dictionary of cell values. -/
def Dict : Type := List (String × PyVal)

/-- `d.get(k)`: the first value bound to `k`, or None (`none`) if absent. -/
def pyGet (d : Dict) (k : String) : Option PyVal :=
  match d.find? (fun kv => kv.1 == k) with
  | some kv => some kv.2
  | Option.none => Option.none

/-- Python `r.get(key) == s` for a string `s` from the URL: only a string
value equal to `s` compares equal (None, ints, booleans and lists never
equal a string). -/
def pyEqStr (v : Option PyVal) (s : String) : Bool :=
  match v with
  | some (.str t) => t == s
  | _ => false

/-- One worksheet: its title and its formula-view grid (the content
returned by `get_values(value_render_option=FORMULA)`). -/
structure Worksheet : Type where
  title : String
  grid : List (List PyVal)

/-- A spreadsheet: its list of worksheets. -/
structure Spreadsheet : Type where
  worksheets : List Worksheet

/-- The remote store and its fixed behaviour during one request. -/
structure Env : Type where
  /-- `get_all_records()` of worksheet 0 of the master-config spreadsheet. -/
  masterRecords : List Dict
  /-- `gc.open_by_key(k)` — the store resolves any key to a spreadsheet. -/
  byKey : PyVal → Spreadsheet
  /-- Diagnostic text of the WorksheetNotFound exception raised by the
  store when a worksheet title is absent (interpolated into the 404 body). -/
  worksheetErr : String

/-- One remote round trip to the spreadsheet store. -/
inductive RemoteCall : Type where
  | openByKey (key : PyVal)
  | getRecords
  | fetchWorksheet (title : String)
  | getValues (title : String)
  | updateCells (title : String) (grid : List (List PyVal))

/-- The Master Config spreadsheet id (src/app.py line 7). -/
def MASTER_CONFIG_ID : String := "1ZAU_kvQEc6_B6-dwL6QdvbUpWkN52kE1zVQHcxBG7Lk"

/-- `load_companies()` (src/app.py lines 17-29): open the master
spreadsheet, take worksheet 0, read all records.  Every call performs the
remote reads afresh; the function keeps no state. -/
def load_companies (env : Env) : List Dict × List RemoteCall :=
  (env.masterRecords,
   [RemoteCall.openByKey (PyVal.str MASTER_CONFIG_ID), RemoteCall.getRecords])

/-- Two consecutive `load_companies()` calls, their results and the
combined remote trace. -/
def load_companies_twice (env : Env) :
    (List Dict × List Dict) × List RemoteCall :=
  let first := load_companies env
  let second := load_companies env
  ((first.1, second.1), first.2 ++ second.2)

/-- One entry of the `/companies` response: exactly the three projected
fields of a master record. -/
structure CompanyOut : Type where
  CompanyId : Option PyVal
  CompanyName : Option PyVal
  SpreadsheetId : Option PyVal
deriving DecidableEq

/-- The record filter of `get_companies`: both `CompanyId` and
`SpreadsheetId` present and truthy. -/
def company_complete (r : Dict) : Bool :=
  pyTruthyO (pyGet r "CompanyId") && pyTruthyO (pyGet r "SpreadsheetId")

/-- The projection of a master record onto the three response fields. -/
def company_entry (r : Dict) : CompanyOut :=
  ⟨pyGet r "CompanyId", pyGet r "CompanyName", pyGet r "SpreadsheetId"⟩

/-- `get_companies` (src/app.py lines 45-55): the list comprehension
projecting every record that has a truthy `CompanyId` and a truthy
`SpreadsheetId`. -/
def get_companies : List Dict → List CompanyOut
  | [] => []
  | r :: rest =>
    if company_complete r then company_entry r :: get_companies rest
    else get_companies rest

/-- Outcome of an update request: a JSON error with its HTTP status, the
success acknowledgement, or an uncaught exception (HTTP 500 crash). -/
inductive Response : Type where
  | err (status : Nat) (msg : String)
  | ok (rows : Nat) (sheet : String)
  | crash

/-- The parsed JSON body of an update request (`payload.get("values")`,
`payload.get("editable")`). -/
structure UpdatePayload : Type where
  values : Option PyVal
  editable : Option PyVal

/-- `isinstance(v, list)` on an optional payload field. -/
def isPyList : Option PyVal → Bool
  | some (.list _) => true
  | _ => false

/-- The row list of a payload field known to be a list. -/
def asRows : Option PyVal → List PyVal
  | some (.list l) => l
  | _ => []

/-- `update_company_sheet` (src/app.py lines 144-198): parameter and
payload validation, company resolution, worksheet resolution, the
formula-preserving read, the gated merge and the bulk write-back.  The
second component is the trace of remote round trips performed. -/
def update_company_sheet (env : Env) (company_id : String)
    (sheetParam : Option String) (payload : UpdatePayload) :
    Response × List RemoteCall :=
  match sheetParam with
  | Option.none => (Response.err 400 "sheet parameter is required", [])
  | some sheet_name =>
    if sheet_name == "" then (Response.err 400 "sheet parameter is required", [])
    else
      if !isPyList payload.values || !isPyList payload.editable then
        (Response.err 400 "values and editable must be 2D lists", [])
      else
        let loaded := load_companies env
        match loaded.1.find? (fun r => pyEqStr (pyGet r "CompanyId") company_id) with
        | Option.none => (Response.err 404 "Company not found", loaded.2)
        | some record =>
          let spreadsheet_id := pyGet record "SpreadsheetId"
          if !pyTruthyO spreadsheet_id then
            (Response.err 400 "SpreadsheetId missing in Master Config", loaded.2)
          else
            let sid := spreadsheet_id.getD PyVal.none
            let sh := env.byKey sid
            let trace2 := loaded.2 ++ [RemoteCall.openByKey sid,
                                       RemoteCall.fetchWorksheet sheet_name]
            match sh.worksheets.find? (fun ws => ws.title == sheet_name) with
            | Option.none =>
              (Response.err 404
                ("Sheet \x27" ++ sheet_name ++ "\x27 not found: " ++ env.worksheetErr),
               trace2)
            | some ws =>
              let current := ws.grid
              let trace3 := trace2 ++ [RemoteCall.getValues sheet_name]
              match merge_dyn current (asRows payload.values) (asRows payload.editable) with
              | Option.none => (Response.crash, trace3)
              | some merged =>
                (Response.ok merged.2 sheet_name,
                 trace3 ++ [RemoteCall.updateCells sheet_name merged.1])

/-! ## Helper lemmas about the merge on well-formed grids -/

theorem can_edit_dyn_grid (ed : List (List PyVal)) (r c : Nat) :
    can_edit_dyn (gridRows ed) r c = some (can_edit_grid ed r c) := by
  unfold can_edit_dyn can_edit_grid gridRows
  rw [List.get?_map]
  cases hr : ed.get? r with
  | none => rfl
  | some erow =>
    simp only [Option.map_some]
    show (match pyLen (PyVal.list erow) with
      | Option.none => Option.none
      | some n => _) = _
    simp only [pyLen]
    by_cases hc : c < erow.length
    · simp only [if_pos hc]
      cases hv : erow.get? c with
      | none => exact absurd (List.get?_eq_none.1 hv) (by omega)
      | some v =>
        show (match pyIndex (PyVal.list erow) c with
          | some (PyVal.bool true) => some true
          | some _ => some false
          | Option.none => Option.none) = _
        simp only [pyIndex, hv]
        cases v with
        | bool b => cases b <;> rfl
        | str s => rfl
        | int n => rfl
        | none => rfl
        | list l => rfl
    · simp only [if_neg hc]
      have hv : erow.get? c = Option.none := List.get?_eq_none.2 (by omega)
      rw [hv]

theorem merge_row_grid (ed : List (List PyVal)) (nrow : List PyVal)
    (r cols : Nat) (hcols : cols ≤ nrow.length) :
    ∀ (c0 : Nat) (row : List PyVal),
      ∃ out, merge_row_dyn (gridRows ed) (PyVal.list nrow) r cols c0 row = some out ∧
        out.length = row.length ∧
        ∀ j v, row.get? j = some v →
          out.get? j =
            if c0 + j < cols ∧ can_edit_grid ed r (c0 + j) = true
            then nrow.get? (c0 + j) else some v := by
  intro c0 row
  induction row generalizing c0 with
  | nil =>
    refine ⟨[], rfl, rfl, ?_⟩
    intro j v hj
    simp at hj
  | cons v rest ih =>
    by_cases hc : c0 < cols
    · obtain ⟨out', hout', hlen', hpt'⟩ := ih (c0 + 1)
      have hce := can_edit_dyn_grid ed r c0
      by_cases hedit : can_edit_grid ed r c0 = true
      · have hidx : ∃ w, nrow.get? c0 = some w := by
          cases hw : nrow.get? c0 with
          | none => exact absurd (List.get?_eq_none.1 hw) (by omega)
          | some w => exact ⟨w, rfl⟩
        obtain ⟨w, hw⟩ := hidx
        refine ⟨w :: out', ?_, by simp [hlen'], ?_⟩
        · unfold merge_row_dyn
          rw [if_pos hc, hce, hedit]
          simp only [if_pos]
          show (match pyIndex (PyVal.list nrow) c0 with
            | Option.none => Option.none
            | some v2 => _) = _
          simp only [pyIndex, hw]
          rw [hout']
        · intro j u hj
          cases j with
          | zero =>
            have hcond : c0 + 0 < cols ∧ can_edit_grid ed r (c0 + 0) = true := by
              refine ⟨by omega, by simpa using hedit⟩
            rw [if_pos hcond]
            simpa using hw.symm
          | succ j' =>
            simp only [List.get?] at hj ⊢
            rw [hpt' j' u hj]
            have harith : c0 + 1 + j' = c0 + (j' + 1) := by omega
            rw [harith]
      · refine ⟨v :: out', ?_, by simp [hlen'], ?_⟩
        · unfold merge_row_dyn
          rw [if_pos hc, hce]
          have hfalse : can_edit_grid ed r c0 = false := by
            cases h : can_edit_grid ed r c0 with
            | false => rfl
            | true => exact absurd h hedit
          rw [hfalse]
          simp only [Bool.false_eq_true, if_neg, ite_false]
          rw [hout']
        · intro j u hj
          cases j with
          | zero =>
            have hj0 : some v = some u := by simpa using hj
            rw [if_neg (fun h => hedit (by simpa using h.2))]
            simpa using hj0
          | succ j' =>
            simp only [List.get?] at hj ⊢
            rw [hpt' j' u hj]
            have harith : c0 + 1 + j' = c0 + (j' + 1) := by omega
            rw [harith]
    · refine ⟨v :: rest, ?_, rfl, ?_⟩
      · unfold merge_row_dyn
        rw [if_neg hc]
      · intro j u hj
        rw [if_neg (fun h => hc (by omega))]
        exact hj

theorem merge_rows_grid (ed nv : List (List PyVal)) (rows : Nat)
    (hrows : rows ≤ nv.length) :
    ∀ (r0 : Nat) (cur : List (List PyVal)),
      ∃ out, merge_rows_dyn (gridRows ed) (gridRows nv) rows r0 cur = some out ∧
        out.length = cur.length ∧
        ∀ i row, cur.get? i = some row →
          ∃ orow, out.get? i = some orow ∧ orow.length = row.length ∧
            ((rows ≤ r0 + i → orow = row) ∧
             ∀ nrow, r0 + i < rows → nv.get? (r0 + i) = some nrow →
               ∀ j v, row.get? j = some v →
                 orow.get? j =
                   if j < min row.length nrow.length ∧
                      can_edit_grid ed (r0 + i) j = true
                   then nrow.get? j else some v) := by
  intro r0 cur
  induction cur generalizing r0 with
  | nil =>
    refine ⟨[], rfl, rfl, ?_⟩
    intro i row hi
    simp at hi
  | cons row rest ih =>
    by_cases hr : r0 < rows
    · have hnv : ∃ nrow, nv.get? r0 = some nrow := by
        cases hw : nv.get? r0 with
        | none => exact absurd (List.get?_eq_none.1 hw) (by omega)
        | some nrow => exact ⟨nrow, rfl⟩
      obtain ⟨nrow, hnrow⟩ := hnv
      have hcols : min row.length nrow.length ≤ nrow.length := Nat.min_le_right _ _
      obtain ⟨orow, horow, holen, hopt⟩ :=
        merge_row_grid ed nrow r0 (min row.length nrow.length) hcols 0 row
      obtain ⟨out', hout', hlen', hpt'⟩ := ih (r0 + 1)
      refine ⟨orow :: out', ?_, by simp [hlen'], ?_⟩
      · unfold merge_rows_dyn
        rw [if_pos hr]
        have hg : (gridRows nv).get? r0 = some (PyVal.list nrow) := by
          unfold gridRows
          rw [List.get?_map, hnrow]
          rfl
        rw [hg]
        show (match pyLen (PyVal.list nrow) with
          | Option.none => Option.none
          | some nlen => _) = _
        simp only [pyLen]
        rw [horow, hout']
      · intro i irow hi
        cases i with
        | zero =>
          have hirow : row = irow := by simpa using hi
          subst hirow
          refine ⟨orow, by simp, holen, ?_, ?_⟩
          · intro hle
            omega
          · intro nrow' hlt hnrow'
            have : nrow' = nrow := by
              rw [show r0 + 0 = r0 by omega] at hnrow'
              rw [hnrow'] at hnrow
              exact Option.some.inj hnrow
            subst this
            intro j v hj
            have := hopt j v hj
            simpa using this
        | succ i' =>
          have hi' : rest.get? i' = some irow := by simpa using hi
          obtain ⟨orow', h1, h2, h3, h4⟩ := hpt' i' irow hi'
          refine ⟨orow', by simpa using h1, h2, ?_, ?_⟩
          · intro hle
            exact h3 (by omega)
          · intro nrow' hlt hnrow'
            have harith : r0 + 1 + i' = r0 + (i' + 1) := by omega
            rw [harith] at h4
            exact h4 nrow' hlt hnrow'
    · refine ⟨row :: rest, ?_, rfl, ?_⟩
      · unfold merge_rows_dyn
        rw [if_neg hr]
      · intro i irow hi
        refine ⟨irow, hi, rfl, fun _ => rfl, ?_⟩
        intro nrow hlt _
        omega

theorem merge_dyn_grid (cur nv ed : List (List PyVal)) :
    ∃ m, merge_dyn cur (gridRows nv) (gridRows ed)
        = some (m, min cur.length nv.length) ∧
      m.length = cur.length ∧
      ∀ i row, cur.get? i = some row →
        ∃ orow, m.get? i = some orow ∧ orow.length = row.length ∧
          ((nv.length ≤ i → orow = row) ∧
           ∀ nrow, i < nv.length → nv.get? i = some nrow →
             ∀ j v, row.get? j = some v →
               orow.get? j =
                 if j < min row.length nrow.length ∧
                    can_edit_grid ed i j = true
                 then nrow.get? j else some v) := by
  have hlen : (gridRows nv).length = nv.length := by
    unfold gridRows
    exact List.length_map _ _
  have hrows : min cur.length (gridRows nv).length ≤ nv.length := by
    rw [hlen]
    exact Nat.min_le_right _ _
  obtain ⟨out, hout, holen, hpt⟩ :=
    merge_rows_grid ed nv (min cur.length (gridRows nv).length) hrows 0 cur
  refine ⟨out, ?_, holen, ?_⟩
  · show Option.map (fun g => (g, min cur.length (gridRows nv).length))
        (merge_rows_dyn (gridRows ed) (gridRows nv)
          (min cur.length (gridRows nv).length) 0 cur) =
      some (out, min cur.length nv.length)
    rw [hout, hlen]
    rfl
  · intro i row hi
    obtain ⟨orow, h1, h2, h3, h4⟩ := hpt i row hi
    have hic : i < cur.length := by
      by_contra hcon
      have : cur.get? i = Option.none := List.get?_eq_none.2 (by omega)
      rw [this] at hi
      exact Option.noConfusion hi
    refine ⟨orow, h1, h2, ?_, ?_⟩
    · intro hle
      refine h3 ?_
      rw [hlen]
      omega
    · intro nrow hlt hnrow
      simp only [Nat.zero_add] at h4
      refine h4 nrow ?_ hnrow
      rw [hlen]
      omega

theorem get_some_lt {α : Type} {l : List α} {n : Nat} {a : α}
    (h : l.get? n = some a) : n < l.length := by
  by_contra hcon
  rw [List.get?_eq_none.2 (by omega)] at h
  exact Option.noConfusion h

theorem can_edit_grid_iff (ed : List (List PyVal)) (r c : Nat) :
    can_edit_grid ed r c = true ↔
      (ed.get? r).bind (fun erow => erow.get? c) = some (PyVal.bool true) := by
  unfold can_edit_grid
  cases ed.get? r with
  | none => simp
  | some erow =>
    simp only [Option.some_bind]
    cases h : erow.get? c with
    | none => simp
    | some v =>
      cases v with
      | bool b => cases b <;> simp
      | str s => simp
      | int n => simp
      | none => simp
      | list l => simp

/-! ## Claim theorems: the merge engine -/

/-- C1: within the overlap of `current` and `incoming`, the merged cell is
`incoming[r][c]` exactly when `editable[r][c]` exists and is the boolean
`True`; in every other case (absent entry, non-boolean such as the string
`"true"` or the integer `1`, or `False`) the merged cell is
`current[r][c]`, whatever `incoming[r][c]` holds. -/
theorem merge_strict_boolean_gate
    (cur nv ed : List (List PyVal)) (r c : Nat)
    (currow nvrow : List PyVal) (cv iv : PyVal)
    (h1 : cur.get? r = some currow) (h2 : currow.get? c = some cv)
    (h3 : nv.get? r = some nvrow) (h4 : nvrow.get? c = some iv) :
    ∃ m, merge_dyn cur (gridRows nv) (gridRows ed)
        = some (m, min cur.length nv.length) ∧
      (m.get? r).bind (fun mrow => mrow.get? c) =
        some (if (ed.get? r).bind (fun erow => erow.get? c)
                  = some (PyVal.bool true) then iv else cv) := by
  obtain ⟨m, hm, hlen, hpt⟩ := merge_dyn_grid cur nv ed
  obtain ⟨orow, ho1, ho2, ho3, ho4⟩ := hpt r currow h1
  have hrlt : r < nv.length := get_some_lt h3
  have hc1 : c < currow.length := get_some_lt h2
  have hc2 : c < nvrow.length := get_some_lt h4
  have hcell := ho4 nvrow hrlt h3 c cv h2
  refine ⟨m, hm, ?_⟩
  rw [ho1, Option.some_bind, hcell]
  by_cases hedit : can_edit_grid ed r c = true
  · rw [if_pos ⟨by omega, hedit⟩, h4,
      if_pos ((can_edit_grid_iff ed r c).1 hedit)]
  · rw [if_neg (fun h => hedit h.2),
      if_neg (fun h => hedit ((can_edit_grid_iff ed r c).2 h))]

theorem merge_strict_boolean_gate_witness :
    ∃ m, merge_dyn [[PyVal.str "a", PyVal.str "b", PyVal.str "c"]]
        (gridRows [[PyVal.str "x", PyVal.str "y", PyVal.str "z"]])
        (gridRows [[PyVal.bool true, PyVal.str "true", PyVal.int 1]])
        = some (m, 1) ∧
      (m.get? 0).bind (fun mrow => mrow.get? 1) =
        some (if ([[PyVal.bool true, PyVal.str "true", PyVal.int 1]].get? 0).bind
                  (fun erow => erow.get? 1) = some (PyVal.bool true)
              then PyVal.str "y" else PyVal.str "b") :=
  merge_strict_boolean_gate
    [[PyVal.str "a", PyVal.str "b", PyVal.str "c"]]
    [[PyVal.str "x", PyVal.str "y", PyVal.str "z"]]
    [[PyVal.bool true, PyVal.str "true", PyVal.int 1]]
    0 1 _ _ _ _ rfl rfl rfl rfl

/-- C6: for all grids, ragged or not, the merge succeeds (no `TypeError`),
keeps the row count and every row length of `current`, and leaves every
cell outside the overlap region (row index at or beyond the shorter row
count, or column index at or beyond the incoming row's length) unchanged. -/
theorem merge_preserves_dims_and_frame (cur nv ed : List (List PyVal)) :
    ∃ m, merge_dyn cur (gridRows nv) (gridRows ed)
        = some (m, min cur.length nv.length) ∧
      m.length = cur.length ∧
      ∀ r currow, cur.get? r = some currow →
        ∃ mrow, m.get? r = some mrow ∧ mrow.length = currow.length ∧
          (nv.length ≤ r → mrow = currow) ∧
          ∀ c v, currow.get? c = some v →
            ∀ nvrow, nv.get? r = some nvrow → nvrow.length ≤ c →
              mrow.get? c = some v := by
  obtain ⟨m, hm, hlen, hpt⟩ := merge_dyn_grid cur nv ed
  refine ⟨m, hm, hlen, ?_⟩
  intro r currow hr
  obtain ⟨orow, h1, h2, h3, h4⟩ := hpt r currow hr
  refine ⟨orow, h1, h2, h3, ?_⟩
  intro c v hc nvrow hnv hcol
  have hrlt : r < nv.length := get_some_lt hnv
  rw [h4 nvrow hrlt hnv c v hc, if_neg (fun h => absurd h.1 (by omega))]

theorem merge_preserves_dims_and_frame_witness :
    ∃ m, merge_dyn [[PyVal.str "a", PyVal.str "b"], [PyVal.str "c"]]
        (gridRows [[PyVal.str "x"]]) (gridRows [[PyVal.bool true]])
        = some (m, 1) ∧
      m.length = 2 ∧ m.get? 1 = some [PyVal.str "c"] := by
  obtain ⟨m, hm, hlen, hpt⟩ :=
    merge_preserves_dims_and_frame
      [[PyVal.str "a", PyVal.str "b"], [PyVal.str "c"]]
      [[PyVal.str "x"]] [[PyVal.bool true]]
  obtain ⟨mrow, hm1, _, h3, _⟩ := hpt 1 [PyVal.str "c"] rfl
  refine ⟨m, hm, hlen, ?_⟩
  rw [hm1, h3 (by simp)]

/-! ## Claim theorems: the editable-mask engine -/

theorem get_zip_some {α β : Type} (l1 : List α) (l2 : List β) :
    ∀ (i : Nat) (a : α) (b : β), l1.get? i = some a → l2.get? i = some b →
      (l1.zip l2).get? i = some (a, b) := by
  induction l1 generalizing l2 with
  | nil =>
    intro i a b h1 _
    exact Option.noConfusion h1
  | cons x xs ih =>
    intro i a b h1 h2
    cases l2 with
    | nil => exact Option.noConfusion h2
    | cons y ys =>
      cases i with
      | zero =>
        have hx : x = a := by simpa using h1
        have hy : y = b := by simpa using h2
        simp [List.zip_cons_cons, hx, hy]
      | succ i' =>
        have h1' : xs.get? i' = some a := by simpa using h1
        have h2' : ys.get? i' = some b := by simpa using h2
        simpa [List.zip_cons_cons] using ih ys i' a b h1' h2'

/-- C3: at every position inside the overlap of the display grid and the
formula grid, the mask is `false` exactly when the formula-view cell is a
string beginning with `=`, and `true` otherwise. -/
theorem editable_mask_formula_lock
    (d f : List (List PyVal)) (r c : Nat)
    (drow frow : List PyVal) (dv fv : PyVal)
    (h1 : d.get? r = some drow) (h2 : f.get? r = some frow)
    (h3 : drow.get? c = some dv) (h4 : frow.get? c = some fv) :
    ((editable_mask d f).get? r).bind (fun mrow => mrow.get? c) =
      some (!is_formula_cell fv) := by
  unfold editable_mask
  rw [List.get?_map, get_zip_some d f r drow frow h1 h2]
  simp only [Option.map_some', Option.some_bind]
  rw [List.get?_map, get_zip_some drow frow c dv fv h3 h4]
  rfl

theorem editable_mask_formula_lock_witness :
    (((editable_mask [[PyVal.str "120", PyVal.str "x"]]
        [[PyVal.str "=SUM(A:A)", PyVal.str "x"]]).get? 0).bind
      (fun mrow => mrow.get? 0) = some false) ∧
    (((editable_mask [[PyVal.str "120", PyVal.str "x"]]
        [[PyVal.str "=SUM(A:A)", PyVal.str "x"]]).get? 0).bind
      (fun mrow => mrow.get? 1) = some true) :=
  ⟨editable_mask_formula_lock _ _ 0 0 _ _ (PyVal.str "120") (PyVal.str "=SUM(A:A)")
      rfl rfl rfl rfl,
   editable_mask_formula_lock _ _ 0 1 _ _ (PyVal.str "x") (PyVal.str "x")
      rfl rfl rfl rfl⟩

theorem mask_row_ignores_display (fr : List PyVal) :
    ∀ (a b : List PyVal), a.length = b.length →
      (a.zip fr).map (fun cells => !is_formula_cell cells.2) =
        (b.zip fr).map (fun cells => !is_formula_cell cells.2) := by
  induction fr with
  | nil =>
    intro a b _
    simp
  | cons fz fs ih =>
    intro a b hlen
    cases a with
    | nil =>
      cases b with
      | nil => rfl
      | cons y ys => simp at hlen
    | cons x xs =>
      cases b with
      | nil => simp at hlen
      | cons y ys =>
        have hlen' : xs.length = ys.length := by simpa using hlen
        simp only [List.zip_cons_cons, List.map_cons]
        rw [ih xs ys hlen']

/-- C10: inside the overlap region the mask depends only on the formula
grid — two display grids of identical shape produce identical masks for
the same formula grid, whatever their cell contents. -/
theorem editable_mask_display_noninterference
    (d1 d2 f : List (List PyVal))
    (hlen : d1.length = d2.length)
    (hrows : ∀ r r1 r2, d1.get? r = some r1 → d2.get? r = some r2 →
      r1.length = r2.length) :
    editable_mask d1 f = editable_mask d2 f := by
  induction d1 generalizing d2 f with
  | nil =>
    cases d2 with
    | nil => rfl
    | cons y ys => simp at hlen
  | cons x xs ih =>
    cases d2 with
    | nil => simp at hlen
    | cons y ys =>
      cases f with
      | nil => rfl
      | cons fz fs =>
        unfold editable_mask
        simp only [List.zip_cons_cons, List.map_cons]
        have hhead : x.length = y.length := hrows 0 x y rfl rfl
        have htail := ih ys fs (by simpa using hlen)
          (fun r r1 r2 hr1 hr2 => hrows (r + 1) r1 r2 (by simpa using hr1)
            (by simpa using hr2))
        rw [mask_row_ignores_display fz x y hhead]
        unfold editable_mask at htail
        rw [htail]

theorem editable_mask_display_noninterference_witness :
    editable_mask [[PyVal.str "1", PyVal.str "2"]] [[PyVal.str "=A1"]] =
      editable_mask [[PyVal.str "other", PyVal.int 9]] [[PyVal.str "=A1"]] :=
  editable_mask_display_noninterference _ _ _ rfl
    (by
      intro r r1 r2 h1 h2
      cases r with
      | zero =>
        have e1 : [PyVal.str "1", PyVal.str "2"] = r1 := by simpa using h1
        have e2 : [PyVal.str "other", PyVal.int 9] = r2 := by simpa using h2
        rw [← e1, ← e2]
        rfl
      | succ r' =>
        exact Option.noConfusion h1)

/-! ## Claim theorems: the clone engine -/

/-- C2: the cleaning step of the clone maps every cell as the source does —
formulas (strings starting with `=`) verbatim, cells whose stripped string
form is empty to empty, cells whose stripped string form with commas removed
parses as a float to the empty string, everything else verbatim — and on the
two-row example grid it clears exactly the `"1,200"` cell. -/
theorem clone_numeric_clear :
    (∀ (g : List (List PyVal)) (r c : Nat) (row : List PyVal) (v : PyVal),
      g.get? r = some row → row.get? c = some v →
      ((cleaned g).get? r).bind (fun orow => orow.get? c) =
        some (if is_formula_cell v = true then v
              else if pyStrip (pyStr v) = "" then PyVal.str ""
              else if pyFloatParses (removeCommas (pyStrip (pyStr v))) = true
                then PyVal.str ""
              else v)) ∧
    cleaned [[PyVal.str "Jan Sales", PyVal.str "=SUM(B1:B1)", PyVal.str "1,200"],
             [PyVal.str "Total", PyVal.str "", PyVal.str "N/A"]] =
      [[PyVal.str "Jan Sales", PyVal.str "=SUM(B1:B1)", PyVal.str ""],
       [PyVal.str "Total", PyVal.str "", PyVal.str "N/A"]] := by
  constructor
  · intro g r c row v h1 h2
    unfold cleaned
    rw [List.get?_map, h1]
    simp only [Option.map_some', Option.some_bind]
    rw [List.get?_map, h2]
    simp only [Option.map_some']
    congr 1
    unfold clean_cell
    simp only [beq_iff_eq]
  · rfl

theorem clone_numeric_clear_witness :
    (((cleaned [[PyVal.str "Jan Sales", PyVal.str "=SUM(B1:B1)",
                 PyVal.str "1,200"]]).get? 0).bind
        (fun orow => orow.get? 2) = some (PyVal.str "")) ∧
    (((cleaned [[PyVal.str "Jan Sales", PyVal.str "=SUM(B1:B1)",
                 PyVal.str "1,200"]]).get? 0).bind
        (fun orow => orow.get? 0) = some (PyVal.str "Jan Sales")) := by
  constructor
  · have h := clone_numeric_clear.1
      [[PyVal.str "Jan Sales", PyVal.str "=SUM(B1:B1)", PyVal.str "1,200"]]
      0 2 [PyVal.str "Jan Sales", PyVal.str "=SUM(B1:B1)", PyVal.str "1,200"]
      (PyVal.str "1,200") rfl rfl
    rw [h]
    rfl
  · have h := clone_numeric_clear.1
      [[PyVal.str "Jan Sales", PyVal.str "=SUM(B1:B1)", PyVal.str "1,200"]]
      0 0 [PyVal.str "Jan Sales", PyVal.str "=SUM(B1:B1)", PyVal.str "1,200"]
      (PyVal.str "Jan Sales") rfl rfl
    rw [h]
    rfl

/-! ## Claim theorems: the company directory -/

/-- A minimal concrete environment for counterexample evaluation. -/
def env0 : Env :=
  { masterRecords := []
    byKey := fun _ => ⟨[]⟩
    worksheetErr := "" }

/-- C4 counterexample: the second of two consecutive `list_companies` calls
performs a second remote read of the master records — the trace of the two
calls holds two `getRecords` round trips, refuting "no second remote read
within the 60-second window" (the code consults no clock at all). -/
theorem load_companies_second_call_rereads :
    ¬ ((load_companies_twice env0).2.countP
        (fun call => match call with
          | RemoteCall.getRecords => true
          | _ => false) ≤ 1) := by
  decide

/-- C4 amended: `load_companies` keeps no cache and no timestamp; every
call, whenever it happens, opens the master spreadsheet and reads the
records afresh, and consecutive calls agree only because each one re-reads
the store. -/
theorem load_companies_fresh_read_every_call (env : Env) :
    load_companies_twice env =
      ((env.masterRecords, env.masterRecords),
       [RemoteCall.openByKey (PyVal.str MASTER_CONFIG_ID), RemoteCall.getRecords,
        RemoteCall.openByKey (PyVal.str MASTER_CONFIG_ID),
        RemoteCall.getRecords]) := rfl

/-! ## Claim theorems: the update handler -/

/-- A concrete environment with one company (`c1`) whose spreadsheet has a
single worksheet `S` holding one non-empty row. -/
def envDemo : Env :=
  { masterRecords := [[("CompanyId", PyVal.str "c1"),
                       ("CompanyName", PyVal.str "Acme"),
                       ("SpreadsheetId", PyVal.str "ss1")]]
    byKey := fun _ => ⟨[⟨"S", [[PyVal.str "v1", PyVal.str "=F(1)"]]⟩]⟩
    worksheetErr := "WorksheetNotFound" }

/-- C5: the boundary check only validates the OUTER payload values as
lists.  A payload whose outer value is not a list is rejected with a 400,
but a list payload containing a non-sequence row passes validation and
raises an uncaught `TypeError` (`len(new_values[r])` on an `int`) once the
merge loop reaches it — a crash, not a request error. -/
theorem update_inner_row_not_validated :
    ((update_company_sheet envDemo "c1" (some "S")
        ⟨some (PyVal.int 5), some (PyVal.list [PyVal.list [PyVal.bool true]])⟩).1 =
      Response.err 400 "values and editable must be 2D lists") ∧
    ((update_company_sheet envDemo "c1" (some "S")
        ⟨some (PyVal.list [PyVal.int 5]),
         some (PyVal.list [PyVal.list [PyVal.bool true]])⟩).1 =
      Response.crash) :=
  ⟨rfl, rfl⟩

/-- C7: a request with no `sheet` query parameter is answered with the 400
request error before any remote round trip happens (empty trace). -/
theorem update_missing_sheet_param_no_remote
    (env : Env) (company_id : String) (payload : UpdatePayload) :
    update_company_sheet env company_id Option.none payload =
      (Response.err 400 "sheet parameter is required", []) := rfl

/-- C8: an update request for a company id matching no master record is
answered 404 with body "Company not found"; an update request for a sheet
title absent from the resolved spreadsheet is answered 404 with a message
containing the requested sheet name. -/
theorem update_not_found_responses :
    (∀ (env : Env) (cid s : String) (p : UpdatePayload),
      s ≠ "" → isPyList p.values = true → isPyList p.editable = true →
      (∀ r ∈ env.masterRecords, pyEqStr (pyGet r "CompanyId") cid = false) →
      (update_company_sheet env cid (some s) p).1 =
        Response.err 404 "Company not found") ∧
    (∀ (env : Env) (cid s : String) (p : UpdatePayload) (record : Dict),
      s ≠ "" → isPyList p.values = true → isPyList p.editable = true →
      env.masterRecords.find? (fun r => pyEqStr (pyGet r "CompanyId") cid)
        = some record →
      pyTruthyO (pyGet record "SpreadsheetId") = true →
      (∀ ws ∈ (env.byKey ((pyGet record "SpreadsheetId").getD PyVal.none)).worksheets,
        ws.title ≠ s) →
      ∃ msg, (update_company_sheet env cid (some s) p).1 =
          Response.err 404 msg ∧ ∃ pre post, msg = pre ++ s ++ post) := by
  constructor
  · intro env cid s p hs hv he hnone
    have hs' : (s == "") = false := beq_eq_false_iff_ne.2 hs
    have hfind : env.masterRecords.find?
        (fun r => pyEqStr (pyGet r "CompanyId") cid) = Option.none :=
      List.find?_eq_none.2 (fun r hr => by simp [hnone r hr])
    simp only [update_company_sheet, hs', hv, he, load_companies, hfind,
      Bool.not_true, Bool.or_self, Bool.false_eq_true, if_false]
  · intro env cid s p record hs hv he hfind htruthy hws
    have hs' : (s == "") = false := beq_eq_false_iff_ne.2 hs
    have hwfind : (env.byKey ((pyGet record "SpreadsheetId").getD PyVal.none)).worksheets.find?
        (fun ws => ws.title == s) = Option.none :=
      List.find?_eq_none.2 (fun ws hw => by simp [hws ws hw])
    refine ⟨"Sheet \x27" ++ s ++ "\x27 not found: " ++ env.worksheetErr, ?_,
      "Sheet \x27", "\x27 not found: " ++ env.worksheetErr, by simp [String.append_assoc]⟩
    simp only [update_company_sheet, hs', hv, he, load_companies, hfind,
      htruthy, hwfind, Bool.not_true, Bool.or_self, Bool.false_eq_true, if_false]

theorem update_not_found_responses_witness :
    ((update_company_sheet envDemo "ghost" (some "S")
        ⟨some (PyVal.list []), some (PyVal.list [])⟩).1 =
      Response.err 404 "Company not found") ∧
    (∃ msg, (update_company_sheet envDemo "c1" (some "Missing")
        ⟨some (PyVal.list []), some (PyVal.list [])⟩).1 =
          Response.err 404 msg ∧ ∃ pre post, msg = pre ++ "Missing" ++ post) := by
  constructor
  · refine update_not_found_responses.1 envDemo "ghost" "S"
      ⟨some (PyVal.list []), some (PyVal.list [])⟩ (by decide) rfl rfl ?_
    intro r hr
    have : r = [("CompanyId", PyVal.str "c1"), ("CompanyName", PyVal.str "Acme"),
                ("SpreadsheetId", PyVal.str "ss1")] := by
      simpa [envDemo] using hr
    rw [this]
    rfl
  · refine update_not_found_responses.2 envDemo "c1" "Missing"
      ⟨some (PyVal.list []), some (PyVal.list [])⟩
      [("CompanyId", PyVal.str "c1"), ("CompanyName", PyVal.str "Acme"),
       ("SpreadsheetId", PyVal.str "ss1")]
      (by decide) rfl rfl rfl rfl ?_
    intro ws hw
    have : ws = ⟨"S", [[PyVal.str "v1", PyVal.str "=F(1)"]]⟩ := by
      simpa [envDemo] using hw
    rw [this]
    decide

/-! ## Claim theorems: the company listing -/

/-- C9: the `/companies` response holds exactly the three-field projections
of the master records whose `CompanyId` and `SpreadsheetId` are both
present and truthy; the projection of any incomplete record (missing or
falsy id) never appears in the response. -/
theorem companies_filter_incomplete (records : List Dict) :
    (∀ e, e ∈ get_companies records ↔
      ∃ r ∈ records, company_complete r = true ∧ e = company_entry r) ∧
    (∀ r ∈ records, company_complete r = false →
      company_entry r ∉ get_companies records) := by
  have hmem : ∀ (rs : List Dict) (e : CompanyOut),
      e ∈ get_companies rs ↔
        ∃ r ∈ rs, company_complete r = true ∧ e = company_entry r := by
    intro rs
    induction rs with
    | nil =>
      intro e
      simp [get_companies]
    | cons r rest ih =>
      intro e
      unfold get_companies
      by_cases hr : company_complete r = true
      · rw [if_pos hr]
        constructor
        · intro hin
          rcases List.mem_cons.1 hin with heq | htail
          · exact ⟨r, List.mem_cons_self r rest, hr, heq⟩
          · obtain ⟨r', hr', hc', he'⟩ := (ih e).1 htail
            exact ⟨r', List.mem_cons_of_mem r hr', hc', he'⟩
        · rintro ⟨r', hr', hc', he'⟩
          rcases List.mem_cons.1 hr' with heq | htail
          · subst heq
            rw [he']
            exact List.mem_cons_self _ _
          · exact List.mem_cons_of_mem _ ((ih e).2 ⟨r', htail, hc', he'⟩)
      · rw [if_neg hr]
        constructor
        · intro hin
          obtain ⟨r', hr', hc', he'⟩ := (ih e).1 hin
          exact ⟨r', List.mem_cons_of_mem r hr', hc', he'⟩
        · rintro ⟨r', hr', hc', he'⟩
          rcases List.mem_cons.1 hr' with heq | htail
          · subst heq
            exact absurd hc' hr
          · exact (ih e).2 ⟨r', htail, hc', he'⟩
  refine ⟨hmem records, ?_⟩
  intro r hr hbad hin
  obtain ⟨r', _, hc', he'⟩ := (hmem records (company_entry r)).1 hin
  have hid : pyGet r "CompanyId" = pyGet r' "CompanyId" :=
    congrArg CompanyOut.CompanyId he'
  have hsid : pyGet r "SpreadsheetId" = pyGet r' "SpreadsheetId" :=
    congrArg CompanyOut.SpreadsheetId he'
  have : company_complete r = true := by
    unfold company_complete at hc' ⊢
    rw [hid, hsid]
    exact hc'
  rw [this] at hbad
  exact Bool.noConfusion hbad

theorem companies_filter_incomplete_witness :
    company_entry [("CompanyId", PyVal.str ""), ("CompanyName", PyVal.str "NoId"),
                   ("SpreadsheetId", PyVal.str "ss2")] ∉
      get_companies
        [[("CompanyId", PyVal.str "c1"), ("CompanyName", PyVal.str "Acme"),
          ("SpreadsheetId", PyVal.str "ss1")],
         [("CompanyId", PyVal.str ""), ("CompanyName", PyVal.str "NoId"),
          ("SpreadsheetId", PyVal.str "ss2")]] :=
  (companies_filter_incomplete _).2
    [("CompanyId", PyVal.str ""), ("CompanyName", PyVal.str "NoId"),
     ("SpreadsheetId", PyVal.str "ss2")]
    (List.mem_cons_of_mem _ (List.mem_cons_self _ _))
    rfl
